import Mathlib

/-!
Shallow embedding of the NSL rankings core (the score engine of
server/db/rankings.js, the ingestion parser of server/db/csvParser.js and the
commit coordinator of server/routes/upload.js) together with proofs checking the
natural-language specification against it.

Modelling conventions:
* JavaScript numbers are modelled as exact rationals (`ℚ`); the spec states
  that all scores are derived by rational arithmetic on stored inputs.
* SQLite tables are modelled as Lean lists of records held in a `Store`;
  `AUTOINCREMENT` ids are modelled by explicit `next…Id` counters.
* SQL `NULL` is modelled by `Option`.
-/

-- Batteries marks the `Rat` arithmetic `@[irreducible]`, which blocks `decide`
-- on concrete rational computations; restore reducibility for this file.
attribute [local semireducible] Rat.add Rat.mul Rat.inv Rat.sub Rat.ofScientific

/-- The four scored disciplines.  Modelled from the spec: the file
`server/constants/events.js` (required by `csvParser.js` and `upload.js`) is
not part of the provided sources; the spec's glossary and the repository's
planning notes fix `EVENTS = ['knockdowns', 'distance', 'speed', 'woods']`. -/
inductive Event where
  | knockdowns
  | distance
  | speed
  | woods
deriving DecidableEq, Repr

/-- `EVENTS` from `server/constants/events.js` (see `Event`). -/
def EVENTS : List Event := [.knockdowns, .distance, .speed, .woods]

/-- The string name of an event, as used in JS template literals. -/
def eventName : Event → String
  | .knockdowns => "knockdowns"
  | .distance => "distance"
  | .speed => "speed"
  | .woods => "woods"

/-- A row of the `competitors` table (`server/db/database.js`). -/
structure Competitor where
  id : Nat
  name : String
  email : Option String
deriving DecidableEq, Repr

/-- A row of the `tournaments` table (`server/db/database.js`): the four
`has_<event>` flags and the four `total_points_<event>` columns are modelled
as functions out of `Event`. -/
structure Tournament where
  id : Nat
  name : Option String
  date : String
  has : Event → Bool
  totalPoints : Event → ℚ

/-- A row of the `tournament_results` table (`server/db/database.js`);
`<event>_earned` columns are nullable. -/
structure TournamentResult where
  competitor_id : Nat
  tournament_id : Nat
  earned : Event → Option ℚ

/-- The database state: the three tables plus the AUTOINCREMENT counters. -/
structure Store where
  competitors : List Competitor
  tournaments : List Tournament
  results : List TournamentResult
  nextCompetitorId : Nat
  nextTournamentId : Nat

/-! ## Score engine (`server/db/rankings.js`) -/

/-- The row set of the SQL query inside `computeEventScore`
(`rankings.js` lines 177–190): results of `competitorId` joined to their
tournament, restricted to `has_<event> = 1` and `<event>_earned IS NOT NULL`;
each row is the pair `(earned, total)`. -/
def eventRows (s : Store) (competitorId : Nat) (e : Event) : List (ℚ × ℚ) :=
  s.results.filterMap fun tr =>
    if tr.competitor_id = competitorId then
      match s.tournaments.find? (fun t => t.id == tr.tournament_id), tr.earned e with
      | some t, some v => if t.has e then some (v, t.totalPoints e) else none
      | _, _ => none
    else none

/-- `computeEventScore` (`rankings.js` lines 176–196): `null` when no rows
qualify, otherwise the mean of `(earned / total) * 100` over all rows. -/
def computeEventScore (s : Store) (competitorId : Nat) (e : Event) : Option ℚ :=
  let rows := eventRows s competitorId e
  if rows.length = 0 then none
  else
    let scores := rows.map fun r => r.1 / r.2 * 100
    some (scores.foldl (· + ·) 0 / scores.length)

/-- The record returned by `computeCompetitorScores`
(`rankings.js` lines 203–214). -/
structure Scores where
  knockdowns : Option ℚ
  distance : Option ℚ
  speed : Option ℚ
  woods : Option ℚ
  total : ℚ
deriving DecidableEq, Repr

/-- Projection of a `Scores` record at an event (JS `scores[event]`). -/
def Scores.at (sc : Scores) : Event → Option ℚ
  | .knockdowns => sc.knockdowns
  | .distance => sc.distance
  | .speed => sc.speed
  | .woods => sc.woods

/-- `computeCompetitorScores` (`rankings.js` lines 203–214): each event score,
plus `total = (sum over EVENTS of (score ?? 0)) / 4`. -/
def computeCompetitorScores (s : Store) (competitorId : Nat) : Scores :=
  let score := computeEventScore s competitorId
  { knockdowns := score .knockdowns
    distance := score .distance
    speed := score .speed
    woods := score .woods
    total := (EVENTS.foldl (fun sum e => sum + (score e).getD 0) 0) / 4 }

/-- One entry of the rankings array built in `computeRankings`
(`rankings.js` lines 224–231): competitor id and name spread together with the
`Scores` fields; `rank` is written by the rank-assignment loop (it is `0`
until then, mirroring the absent JS property). -/
structure RankedRow where
  id : Nat
  name : String
  knockdowns : Option ℚ
  distance : Option ℚ
  speed : Option ℚ
  woods : Option ℚ
  total : ℚ
  rank : Nat
deriving DecidableEq, Repr

/-- The scored row for one competitor before rank assignment. -/
def scoredRow (s : Store) (c : Competitor) : RankedRow :=
  let sc := computeCompetitorScores s c.id
  { id := c.id, name := c.name
    knockdowns := sc.knockdowns, distance := sc.distance
    speed := sc.speed, woods := sc.woods
    total := sc.total, rank := 0 }

/-! ### Stable sorting

`better-sqlite3` returns the `ORDER BY name` rows in ascending name order, and
`Array.prototype.sort` is a stable sort (guaranteed since ES2019).  Both are
modelled by one stable insertion sort parametrised by a boolean "may come
before" relation `le`. -/

/-- Stable insertion: `x` is placed before the first element `y` with
`le x y = true`; elements it skips satisfy `le x y = false`. -/
def insertLe (le : α → α → Bool) (x : α) : List α → List α
  | [] => [x]
  | y :: ys => if le x y then x :: y :: ys else y :: insertLe le x ys

/-- Stable insertion sort by `le`. -/
def sortByLe (le : α → α → Bool) (l : List α) : List α :=
  l.foldr (insertLe le) []

/-- Comparator of `rankings.sort((a, b) => b.total - a.total)`
(`rankings.js` line 234): descending by total, stable. -/
def totalDesc (a b : RankedRow) : Bool := decide (b.total ≤ a.total)

/-- Lexicographic ≤ on character lists; SQLite's default BINARY collation
compares UTF-8 bytes, which on valid UTF-8 is exactly code-point
lexicographic order. -/
def listLeb : List Char → List Char → Bool
  | [], _ => true
  | _ :: _, [] => false
  | a :: as, b :: bs => if a < b then true else if b < a then false else listLeb as bs

/-- Byte-wise string ≤ (see `listLeb`). -/
def strLeb (a b : String) : Bool := listLeb a.data b.data

/-- Comparator of the SQL `ORDER BY name` (`rankings.js` line 221). -/
def nameAsc (a b : Competitor) : Bool := strLeb a.name b.name

/-- The rank-assignment loop of `computeRankings` (`rankings.js` lines
237–243) after its first iteration: `prevTotal` is the previous row's total,
`rank` the rank currently in force, `i` the current index. -/
def assignRanksAux (prevTotal : ℚ) (rank i : Nat) : List RankedRow → List RankedRow
  | [] => []
  | r :: rs =>
    if r.total = prevTotal then
      { r with rank := rank } :: assignRanksAux r.total rank (i + 1) rs
    else
      { r with rank := i + 1 } :: assignRanksAux r.total (i + 1) (i + 1) rs

/-- The rank-assignment loop of `computeRankings` (`rankings.js` lines
237–243): the first row gets rank 1. -/
def assignRanks : List RankedRow → List RankedRow
  | [] => []
  | r :: rs => { r with rank := 1 } :: assignRanksAux r.total 1 1 rs

/-- The name-sorted competitor list mapped through the score engine — the
`rankings` array of `computeRankings` (`rankings.js` lines 220–231) before the
descending sort. -/
def scoredList (s : Store) : List RankedRow :=
  (sortByLe nameAsc s.competitors).map (scoredRow s)

/-- `computeRankings` (`rankings.js` lines 219–246): score every competitor in
name order, sort by total descending (stable), assign competition ranks. -/
def computeRankings (s : Store) : List RankedRow :=
  assignRanks (sortByLe totalDesc (scoredList s))

/-! ## A first sanity example -/

/-- The store of the spec's §8 example: one competitor, three tournaments with
`total_points_knockdowns` 100/200/150 and earned 80/120/120. -/
def exampleStoreC1 : Store :=
  { competitors := [⟨1, "Alice", none⟩]
    tournaments :=
      [ ⟨1, some "T1", "2024-01-01", fun _ => true, fun _ => 100⟩
      , ⟨2, some "T2", "2024-01-02", fun _ => true, fun _ => 200⟩
      , ⟨3, some "T3", "2024-01-03", fun _ => true, fun _ => 150⟩ ]
    results :=
      [ ⟨1, 1, fun e => if e = .knockdowns then some 80 else none⟩
      , ⟨1, 2, fun e => if e = .knockdowns then some 120 else none⟩
      , ⟨1, 3, fun e => if e = .knockdowns then some 120 else none⟩ ]
    nextCompetitorId := 2
    nextTournamentId := 4 }

example : computeEventScore exampleStoreC1 1 .knockdowns = some (220 / 3) := by decide

example : computeEventScore exampleStoreC1 1 .distance = none := by decide

/-! ## Lemmas about the stable insertion sort -/

theorem mem_insertLe (le : α → α → Bool) (x a : α) (s : List α) :
    a ∈ insertLe le x s ↔ a = x ∨ a ∈ s := by
  induction s with
  | nil => simp [insertLe]
  | cons y ys ih =>
    unfold insertLe
    split
    · simp [List.mem_cons]
    · simp only [List.mem_cons, ih]
      tauto

theorem mem_sortByLe (le : α → α → Bool) (a : α) (l : List α) :
    a ∈ sortByLe le l ↔ a ∈ l := by
  induction l with
  | nil => simp [sortByLe]
  | cons b l ih =>
    simp only [sortByLe, List.foldr_cons] at *
    rw [mem_insertLe, ih, List.mem_cons]

theorem pairwise_insertLe (le : α → α → Bool)
    (htot : ∀ a b, le a b = false → le b a = true)
    (htrans : ∀ a b c, le a b = true → le b c = true → le a c = true)
    (x : α) (s : List α) (hs : s.Pairwise (fun a b => le a b = true)) :
    (insertLe le x s).Pairwise (fun a b => le a b = true) := by
  induction s with
  | nil => simp [insertLe]
  | cons y ys ih =>
    rw [List.pairwise_cons] at hs
    obtain ⟨hy, hys⟩ := hs
    unfold insertLe
    split
    next h =>
      refine List.pairwise_cons.mpr ⟨?_, List.pairwise_cons.mpr ⟨hy, hys⟩⟩
      intro z hz
      rcases List.mem_cons.mp hz with rfl | hz'
      · exact h
      · exact htrans x y z h (hy z hz')
    next h =>
      have hf : le x y = false := by
        cases hxy : le x y with
        | true => exact absurd hxy h
        | false => rfl
      refine List.pairwise_cons.mpr ⟨?_, ih hys⟩
      intro z hz
      rcases (mem_insertLe le x z ys).mp hz with hzx | hz'
      · rw [hzx]
        exact htot x y hf
      · exact hy z hz'

theorem pairwise_sortByLe (le : α → α → Bool)
    (htot : ∀ a b, le a b = false → le b a = true)
    (htrans : ∀ a b c, le a b = true → le b c = true → le a c = true)
    (l : List α) : (sortByLe le l).Pairwise (fun a b => le a b = true) := by
  induction l with
  | nil => exact List.Pairwise.nil
  | cons b l ih =>
    simpa only [sortByLe, List.foldr_cons] using
      pairwise_insertLe le htot htrans b _ ih

/-- Stability of the insertion sort, expressed through `filter`: provided the
filtered class is never skipped over during insertion (`h`), the sorted list
restricted to that class is the input list restricted to that class. -/
theorem filter_insertLe (le : α → α → Bool) (p : α → Bool)
    (h : ∀ x y, p x = true → le x y = false → p y = false)
    (x : α) (s : List α) :
    (insertLe le x s).filter p = (if p x then [x] else []) ++ s.filter p := by
  induction s with
  | nil => cases hpx : p x <;> simp [insertLe, List.filter_cons, hpx]
  | cons y ys ih =>
    unfold insertLe
    split
    next hxy =>
      cases hpx : p x <;> simp [List.filter_cons, hpx]
    next hxy =>
      have hxyf : le x y = false := by
        cases hv : le x y with
        | true => exact absurd hv hxy
        | false => rfl
      cases hpx : p x with
      | true =>
        have hpy : p y = false := h x y hpx hxyf
        simp [List.filter_cons, hpy, ih, hpx]
      | false =>
        simp [List.filter_cons, ih, hpx]

theorem filter_sortByLe (le : α → α → Bool) (p : α → Bool)
    (h : ∀ x y, p x = true → le x y = false → p y = false)
    (l : List α) : (sortByLe le l).filter p = l.filter p := by
  induction l with
  | nil => rfl
  | cons b l ih =>
    simp only [sortByLe, List.foldr_cons] at *
    rw [filter_insertLe le p h, ih, List.filter_cons]
    cases hpb : p b <;> simp [hpb]

/-! ## Lemmas about competition-rank assignment -/

/-- Forget the rank of a row (used to compare rows modulo rank). -/
def eraseRank (r : RankedRow) : RankedRow := { r with rank := 0 }

theorem eraseRank_setRank (r : RankedRow) (n : Nat) :
    eraseRank { r with rank := n } = eraseRank r := rfl

theorem total_setRank (r : RankedRow) (n : Nat) :
    ({ r with rank := n } : RankedRow).total = r.total := rfl

theorem map_eraseRank_assignRanksAux (prev : ℚ) (rank i : Nat) (l : List RankedRow) :
    (assignRanksAux prev rank i l).map eraseRank = l.map eraseRank := by
  induction l generalizing prev rank i with
  | nil => rfl
  | cons r rs ih =>
    unfold assignRanksAux
    split <;> simp [ih, eraseRank_setRank]

theorem map_eraseRank_assignRanks (l : List RankedRow) :
    (assignRanks l).map eraseRank = l.map eraseRank := by
  cases l with
  | nil => rfl
  | cons r rs => simp [assignRanks, map_eraseRank_assignRanksAux, eraseRank_setRank]

theorem filter_total_assignRanksAux (t prev : ℚ) (rank i : Nat) (l : List RankedRow) :
    ((assignRanksAux prev rank i l).filter (fun r => decide (r.total = t))).map eraseRank
      = (l.filter (fun r => decide (r.total = t))).map eraseRank := by
  induction l generalizing prev rank i with
  | nil => rfl
  | cons r rs ih =>
    unfold assignRanksAux
    split <;>
    · simp only [List.filter_cons, total_setRank]
      cases hrt : decide (r.total = t) <;> simp [hrt, ih, eraseRank_setRank]

theorem filter_total_assignRanks (t : ℚ) (l : List RankedRow) :
    ((assignRanks l).filter (fun r => decide (r.total = t))).map eraseRank
      = (l.filter (fun r => decide (r.total = t))).map eraseRank := by
  cases l with
  | nil => rfl
  | cons r rs =>
    simp only [assignRanks, List.filter_cons, total_setRank]
    cases hrt : decide (r.total = t) <;>
      simp [hrt, filter_total_assignRanksAux, eraseRank_setRank]

/-- Invariant-carrying form of the rank loop on a descending-sorted suffix:
`c` is the list of rows already consumed, `prev` the last consumed total; the
rank in force is `1 + (number of consumed rows with a strictly greater total)`
and every row then receives `1 + (number of rows anywhere with a strictly
greater total)` — standard competition ranking. -/
theorem assignRanksAux_eq_rankMap (l : List RankedRow) :
    ∀ (c : List RankedRow) (prev : ℚ),
    (∀ x ∈ c, prev ≤ x.total) →
    (∀ x ∈ l, x.total ≤ prev) →
    l.Pairwise (fun a b => b.total ≤ a.total) →
    assignRanksAux prev (1 + c.countP (fun x => decide (prev < x.total))) c.length l
      = l.map (fun r =>
          { r with rank := 1 + (c ++ l).countP (fun x => decide (r.total < x.total)) }) := by
  induction l with
  | nil => intro c prev _ _ _; rfl
  | cons r rs ih =>
    intro c prev hc hl hs
    rw [List.pairwise_cons] at hs
    obtain ⟨hr, hrs⟩ := hs
    have hrprev : r.total ≤ prev := hl r (List.mem_cons_self r rs)
    have hcount0 : (r :: rs).countP (fun x => decide (r.total < x.total)) = 0 := by
      refine List.countP_eq_zero.mpr ?_
      intro a ha
      rcases List.mem_cons.mp ha with rfl | ha'
      · simp
      · simpa using not_lt_of_le (hr a ha')
    have hsplit : (c ++ r :: rs).countP (fun x => decide (r.total < x.total))
        = c.countP (fun x => decide (r.total < x.total)) := by
      rw [List.countP_append, hcount0, Nat.add_zero]
    by_cases heq : r.total = prev
    · have hcc : c.countP (fun x => decide (r.total < x.total))
          = c.countP (fun x => decide (prev < x.total)) := by rw [heq]
      have hstep := ih (c ++ [r]) r.total
        (by
          intro x hx
          rcases List.mem_append.mp hx with hx' | hx'
          · exact heq ▸ hc x hx'
          · rcases List.mem_singleton.mp hx' with rfl; exact le_refl _)
        hr hrs
      have hrank' : 1 + (c ++ [r]).countP (fun x => decide (r.total < x.total))
          = 1 + c.countP (fun x => decide (prev < x.total)) := by
        rw [List.countP_append, hcc]; simp
      have hlen : (c ++ [r]).length = c.length + 1 := by simp
      rw [hrank', hlen] at hstep
      simp only [List.append_assoc, List.singleton_append] at hstep
      unfold assignRanksAux
      rw [if_pos heq, hstep]
      simp only [List.map_cons]
      rw [hsplit, hcc]
    · have hlt : r.total < prev := lt_of_le_of_ne hrprev heq
      have hcc : c.countP (fun x => decide (r.total < x.total)) = c.length := by
        refine List.countP_eq_length.mpr ?_
        intro a ha
        simpa using lt_of_lt_of_le hlt (hc a ha)
      have hstep := ih (c ++ [r]) r.total
        (by
          intro x hx
          rcases List.mem_append.mp hx with hx' | hx'
          · exact le_of_lt (lt_of_lt_of_le hlt (hc x hx'))
          · rcases List.mem_singleton.mp hx' with rfl; exact le_refl _)
        hr hrs
      have hrank' : 1 + (c ++ [r]).countP (fun x => decide (r.total < x.total))
          = c.length + 1 := by
        rw [List.countP_append, hcc]; simp [Nat.add_comm]
      have hlen : (c ++ [r]).length = c.length + 1 := by simp
      rw [hrank', hlen] at hstep
      simp only [List.append_assoc, List.singleton_append] at hstep
      unfold assignRanksAux
      rw [if_neg heq, hstep]
      simp only [List.map_cons]
      rw [hsplit, hcc, Nat.add_comm 1 c.length]

/-- On a descending-sorted list, the rank loop of `computeRankings` computes
standard competition ranking: every row's rank is `1 + (number of rows with a
strictly greater total)`. -/
theorem assignRanks_eq_rankMap (l : List RankedRow)
    (hs : l.Pairwise (fun a b => b.total ≤ a.total)) :
    assignRanks l = l.map (fun r =>
      { r with rank := 1 + l.countP (fun x => decide (r.total < x.total)) }) := by
  cases l with
  | nil => rfl
  | cons r rs =>
    rw [List.pairwise_cons] at hs
    obtain ⟨hr, hrs⟩ := hs
    have hcount0 : (r :: rs).countP (fun x => decide (r.total < x.total)) = 0 := by
      refine List.countP_eq_zero.mpr ?_
      intro a ha
      rcases List.mem_cons.mp ha with rfl | ha'
      · simp
      · simpa using not_lt_of_le (hr a ha')
    have hstep := assignRanksAux_eq_rankMap rs [r] r.total
      (by intro x hx; rcases List.mem_singleton.mp hx with rfl; exact le_refl _)
      hr hrs
    have hone : (1 : Nat) + [r].countP (fun x => decide (r.total < x.total)) = 1 := by
      simp
    rw [hone] at hstep
    simp only [List.length_singleton, List.singleton_append] at hstep
    rw [show assignRanks (r :: rs)
        = { r with rank := 1 } :: assignRanksAux r.total 1 1 rs from rfl, hstep]
    simp only [List.map_cons]
    rw [hcount0]

/-! ## Comparator facts -/

theorem totalDesc_total (a b : RankedRow) (h : totalDesc a b = false) :
    totalDesc b a = true := by
  simp only [totalDesc, decide_eq_false_iff_not, decide_eq_true_eq] at *
  exact le_of_not_le h

theorem totalDesc_trans (a b c : RankedRow)
    (h₁ : totalDesc a b = true) (h₂ : totalDesc b c = true) :
    totalDesc a c = true := by
  simp only [totalDesc, decide_eq_true_eq] at *
  exact le_trans h₂ h₁

theorem listLeb_total : ∀ a b : List Char, listLeb a b = false → listLeb b a = true := by
  intro a
  induction a with
  | nil => intro b h; simp [listLeb] at h
  | cons x xs ih =>
    intro b h
    cases b with
    | nil => rfl
    | cons y ys =>
      simp only [listLeb] at h ⊢
      by_cases hxy : x < y
      · simp [hxy] at h
      · by_cases hyx : y < x
        · simp [hyx]
        · have hxyeq : x = y := le_antisymm (le_of_not_lt hyx) (le_of_not_lt hxy)
          simp only [hxy, hyx, if_neg, ite_false] at h
          simp only [hxyeq] at *
          simp only [lt_irrefl, ite_false, if_neg]
          exact ih ys h

theorem listLeb_trans :
    ∀ a b c : List Char, listLeb a b = true → listLeb b c = true → listLeb a c = true := by
  intro a
  induction a with
  | nil => intro b c _ _; rfl
  | cons x xs ih =>
    intro b c h₁ h₂
    cases b with
    | nil => simp [listLeb] at h₁
    | cons y ys =>
      cases c with
      | nil => simp [listLeb] at h₂
      | cons z zs =>
        simp only [listLeb] at h₁ h₂ ⊢
        by_cases hxy : x < y
        · by_cases hyz : y < z
          · simp [lt_trans hxy hyz]
          · by_cases hzy : z < y
            · simp [hyz, hzy] at h₂
            · have : y = z := le_antisymm (le_of_not_lt hzy) (le_of_not_lt hyz)
              subst this
              simp [hxy]
        · by_cases hyx : y < x
          · simp [hxy, hyx] at h₁
          · have hxyeq : x = y := le_antisymm (le_of_not_lt hyx) (le_of_not_lt hxy)
            subst hxyeq
            simp only [lt_irrefl, ite_false, if_neg] at h₁
            by_cases hyz : x < z
            · simp [hyz]
            · by_cases hzy : z < x
              · simp [hyz, hzy] at h₂
              · have : x = z := le_antisymm (le_of_not_lt hzy) (le_of_not_lt hyz)
                subst this
                simp only [lt_irrefl, ite_false, if_neg] at h₂ ⊢
                exact ih ys zs h₁ h₂

theorem nameAsc_total (a b : Competitor) (h : nameAsc a b = false) :
    nameAsc b a = true :=
  listLeb_total a.name.data b.name.data h

theorem nameAsc_trans (a b c : Competitor)
    (h₁ : nameAsc a b = true) (h₂ : nameAsc b c = true) :
    nameAsc a c = true :=
  listLeb_trans a.name.data b.name.data c.name.data h₁ h₂

theorem sorted_sortByLe_totalDesc (l : List RankedRow) :
    (sortByLe totalDesc l).Pairwise (fun a b => b.total ≤ a.total) := by
  exact (pairwise_sortByLe totalDesc totalDesc_total totalDesc_trans l).imp
    (fun h => of_decide_eq_true h)

/-! ## C1: event score is the direct mean over the full history -/

/-- The incrementally-updated running average the spec contrasts against
(kept distinct from anything in the source; it exists only to be compared
with `computeEventScore`). -/
def runningAverage : List ℚ → Option ℚ
  | [] => none
  | x :: xs => some (xs.foldl (fun a b => (a + b) / 2) x)

/-- C1: for every competitor and event, `computeEventScore` returns `null`
exactly when no tournament qualifies, and otherwise the arithmetic mean of
`(earned / total) * 100` taken directly over the full qualifying set; on the
spec's three-tournament example (totals 100/200/150, earned 80/120/120) it
yields `220/3 = 73.33…`, whereas the running average of the same percentages
is `75`, and the two differ. -/
theorem C1_eventScore_direct_mean :
    (∀ (s : Store) (cid : Nat) (e : Event),
        computeEventScore s cid e
          = if eventRows s cid e = [] then none
            else some ((((eventRows s cid e).map fun r => r.1 / r.2 * 100).sum)
              / ((eventRows s cid e).length : ℚ)))
    ∧ computeEventScore exampleStoreC1 1 .knockdowns = some (220 / 3)
    ∧ ((eventRows exampleStoreC1 1 .knockdowns).map fun r => r.1 / r.2 * 100)
        = [80, 60, 80]
    ∧ runningAverage [80, 60, 80] = some 75
    ∧ (220 / 3 : ℚ) ≠ 75 := by
  refine ⟨?_, by decide, by decide, by decide, by decide⟩
  intro s cid e
  simp only [computeEventScore, List.length_map, List.length_eq_zero]
  by_cases h : eventRows s cid e = []
  · simp [h]
  · simp only [if_neg h]
    congr 1
    rw [List.sum_eq_foldl]

/-! ## C2: total score -/

/-- A store with a single competitor who has no stored results. -/
def storeC2 : Store :=
  { competitors := [⟨1, "Bob", none⟩]
    tournaments := []
    results := []
    nextCompetitorId := 2
    nextTournamentId := 1 }

/-- C2: the total is always the sum of the four `eventScore ?? 0` values
divided by 4; a competitor with no stored result rows has total `0` (not
`null`), and every stored competitor appears in the rankings output with that
total. -/
theorem C2_totalScore :
    (∀ (s : Store) (cid : Nat),
        (computeCompetitorScores s cid).total
          = ((computeEventScore s cid .knockdowns).getD 0
              + (computeEventScore s cid .distance).getD 0
              + (computeEventScore s cid .speed).getD 0
              + (computeEventScore s cid .woods).getD 0) / 4)
    ∧ (∀ (s : Store) (cid : Nat),
        (∀ r ∈ s.results, r.competitor_id ≠ cid) →
          (computeCompetitorScores s cid).total = 0)
    ∧ (∀ (s : Store) (c : Competitor), c ∈ s.competitors →
        ∃ r ∈ computeRankings s,
          r.id = c.id ∧ r.total = (computeCompetitorScores s c.id).total) := by
  have htotal : ∀ (s : Store) (cid : Nat),
      (computeCompetitorScores s cid).total
        = ((computeEventScore s cid .knockdowns).getD 0
            + (computeEventScore s cid .distance).getD 0
            + (computeEventScore s cid .speed).getD 0
            + (computeEventScore s cid .woods).getD 0) / 4 := by
    intro s cid
    simp only [computeCompetitorScores, EVENTS, List.foldl_cons, List.foldl_nil]
    ring_nf
  refine ⟨htotal, ?_, ?_⟩
  · intro s cid h
    have hrows : ∀ e : Event, eventRows s cid e = [] := by
      intro e
      refine List.filterMap_eq_nil_iff.mpr ?_
      intro tr htr
      simp [h tr htr]
    have hnone : ∀ e : Event, computeEventScore s cid e = none := by
      intro e
      simp [computeEventScore, hrows e]
    rw [htotal]
    simp [hnone]
  · intro s c hc
    have h1 : scoredRow s c ∈ sortByLe totalDesc (scoredList s) := by
      refine (mem_sortByLe totalDesc _ _).mpr ?_
      exact List.mem_map_of_mem _ ((mem_sortByLe nameAsc _ _).mpr hc)
    have h2 : eraseRank (scoredRow s c)
        ∈ (assignRanks (sortByLe totalDesc (scoredList s))).map eraseRank := by
      rw [map_eraseRank_assignRanks]
      exact List.mem_map_of_mem _ h1
    obtain ⟨r, hr, hre⟩ := List.mem_map.mp h2
    refine ⟨r, hr, ?_, ?_⟩
    · exact congrArg RankedRow.id hre
    · exact congrArg RankedRow.total hre

theorem C2_totalScore_witness :
    ((computeCompetitorScores storeC2 1).total
        = ((computeEventScore storeC2 1 .knockdowns).getD 0
            + (computeEventScore storeC2 1 .distance).getD 0
            + (computeEventScore storeC2 1 .speed).getD 0
            + (computeEventScore storeC2 1 .woods).getD 0) / 4)
    ∧ (computeCompetitorScores storeC2 1).total = 0
    ∧ ∃ r ∈ computeRankings storeC2,
        r.id = 1 ∧ r.total = (computeCompetitorScores storeC2 1).total :=
  ⟨C2_totalScore.1 storeC2 1,
   C2_totalScore.2.1 storeC2 1 (by simp [storeC2]),
   C2_totalScore.2.2 storeC2 ⟨1, "Bob", none⟩ (by decide)⟩

/-! ## C3: descending order and competition ranking -/

/-- A store with a three-way tie at the top: competitors a/b/c all earn
100/100 in the only active event (knockdowns), d earns 50/100. -/
def tieStore : Store :=
  { competitors :=
      [⟨1, "a", none⟩, ⟨2, "b", none⟩, ⟨3, "c", none⟩, ⟨4, "d", none⟩]
    tournaments :=
      [⟨1, some "T", "2024-01-01", fun e => decide (e = Event.knockdowns), fun _ => 100⟩]
    results :=
      [ ⟨1, 1, fun e => if e = .knockdowns then some 100 else none⟩
      , ⟨2, 1, fun e => if e = .knockdowns then some 100 else none⟩
      , ⟨3, 1, fun e => if e = .knockdowns then some 100 else none⟩
      , ⟨4, 1, fun e => if e = .knockdowns then some 50 else none⟩ ]
    nextCompetitorId := 5
    nextTournamentId := 2 }

/-- C3: the rankings output is sorted by total descending; every row's rank is
`1 + (number of rows with a strictly greater total)` (standard competition
ranking, with exact equality of totals as tie detection); rows with equal
totals share a rank; and on a concrete store with a three-way tie at the top
the ranks are 1, 1, 1, 4. -/
theorem C3_competition_ranking :
    (∀ s : Store, (computeRankings s).Pairwise fun a b => b.total ≤ a.total)
    ∧ (∀ s : Store, ∀ r ∈ computeRankings s,
        r.rank = 1 + (computeRankings s).countP fun x => decide (r.total < x.total))
    ∧ (∀ s : Store, ∀ r ∈ computeRankings s, ∀ q ∈ computeRankings s,
        r.total = q.total → r.rank = q.rank)
    ∧ (computeRankings tieStore).map (fun r => (r.name, r.rank))
        = [("a", 1), ("b", 1), ("c", 1), ("d", 4)] := by
  have hrank : ∀ s : Store, ∀ r ∈ computeRankings s,
      r.rank = 1 + (computeRankings s).countP fun x => decide (r.total < x.total) := by
    intro s r hr
    rw [computeRankings,
      assignRanks_eq_rankMap _ (sorted_sortByLe_totalDesc (scoredList s))] at hr ⊢
    obtain ⟨r₀, h₀, rfl⟩ := List.mem_map.mp hr
    rw [List.countP_map]
    rfl
  refine ⟨?_, hrank, ?_, by decide⟩
  · intro s
    rw [computeRankings,
      assignRanks_eq_rankMap _ (sorted_sortByLe_totalDesc (scoredList s))]
    exact List.pairwise_map.mpr (sorted_sortByLe_totalDesc (scoredList s))
  · intro s r hr q hq h
    rw [hrank s r hr, hrank s q hq, h]

/-- The first row of `computeRankings tieStore` (used by the C3 witness). -/
def tieRowA : RankedRow :=
  { id := 1, name := "a", knockdowns := some 100, distance := none
    speed := none, woods := none, total := 25, rank := 1 }

/-- The second row of `computeRankings tieStore` (used by the C3 witness). -/
def tieRowB : RankedRow :=
  { id := 2, name := "b", knockdowns := some 100, distance := none
    speed := none, woods := none, total := 25, rank := 1 }

theorem C3_competition_ranking_witness :
    tieRowA ∈ computeRankings tieStore
    ∧ tieRowA.rank
        = 1 + (computeRankings tieStore).countP (fun x => decide (tieRowA.total < x.total))
    ∧ tieRowA.rank = tieRowB.rank :=
  ⟨by decide,
   C3_competition_ranking.2.1 tieStore tieRowA (by decide),
   C3_competition_ranking.2.2.1 tieStore tieRowA (by decide) tieRowB (by decide)
     (by decide)⟩

/-! ## C10: tie order is the name-sorted order (the total sort is stable) -/

/-- C10: within any class of equal totals, the rankings output (ranks erased)
is exactly the name-sorted scored list restricted to that class — the
descending total sort is stable — and consequently rows tied on total appear
in ascending (byte-wise) name order. -/
theorem C10_tie_order_stable :
    ∀ (s : Store) (t : ℚ),
      (((computeRankings s).filter (fun r => decide (r.total = t))).map eraseRank
        = ((scoredList s).filter (fun r => decide (r.total = t))).map eraseRank)
      ∧ ((computeRankings s).filter (fun r => decide (r.total = t))).Pairwise
          (fun a b => strLeb a.name b.name = true) := by
  intro s t
  have hcond : ∀ x y : RankedRow, decide (x.total = t) = true →
      totalDesc x y = false → decide (y.total = t) = false := by
    intro x y hx hxy
    simp only [totalDesc, decide_eq_false_iff_not, decide_eq_true_eq] at *
    intro hyt
    exact hxy (le_of_eq (hyt.trans hx.symm))
  have hstab : (sortByLe totalDesc (scoredList s)).filter (fun r => decide (r.total = t))
      = (scoredList s).filter (fun r => decide (r.total = t)) :=
    filter_sortByLe totalDesc _ hcond (scoredList s)
  have h1 : ((computeRankings s).filter (fun r => decide (r.total = t))).map eraseRank
      = ((scoredList s).filter (fun r => decide (r.total = t))).map eraseRank := by
    rw [computeRankings, filter_total_assignRanks, hstab]
  refine ⟨h1, ?_⟩
  have hnames : ((scoredList s).filter (fun r => decide (r.total = t))).Pairwise
      (fun a b => strLeb a.name b.name = true) := by
    refine List.Pairwise.filter _ ?_
    rw [scoredList]
    exact List.Pairwise.map (scoredRow s) (fun a b h => h)
      (pairwise_sortByLe nameAsc nameAsc_total nameAsc_trans s.competitors)
  have h2 : (((computeRankings s).filter (fun r => decide (r.total = t))).map
      eraseRank).Pairwise (fun a b => strLeb a.name b.name = true) := by
    rw [h1]
    exact List.Pairwise.map eraseRank (fun a b h => h) hnames
  exact List.Pairwise.of_map eraseRank (fun a b h => h) h2

/-! ## CSV ingestion parser (`server/db/csvParser.js`)

PapaParse is an external dependency; its output (with `dynamicTyping: false`)
is a grid of string cells, which is where the parser's own logic starts
(`csvParser.js` line 51), so `parseCSV` below takes the row grid directly.
`String.toLowerCase`, `trim` and the global `parseFloat` are modelled
character-wise (`parseFloat` without exponents or `Infinity`, which no claim
depends on). -/

/-- ASCII lower-casing, as used for header normalisation and name matching. -/
def lowerStr (s : String) : String := ⟨s.data.map Char.toLower⟩

/-- `String.prototype.trim`. -/
def trimStr (s : String) : String :=
  ⟨((s.data.dropWhile Char.isWhitespace).reverse.dropWhile Char.isWhitespace).reverse⟩

/-- `COLUMN_ALIASES` for the four events (`csvParser.js` lines 6–12). -/
def eventAliases : Event → List String
  | .knockdowns => ["knockdowns", "knockdown", "knock", "kd", "knock downs", "knock-downs"]
  | .distance => ["distance", "dist", "dst", "distanc"]
  | .speed => ["speed", "spd", "sp", "velocity"]
  | .woods => ["woods", "wood", "woods course", "woods_course", "woodscourse", "forest", "wc"]

/-- `COLUMN_ALIASES.name` (`csvParser.js` line 11). -/
def nameAliases : List String :=
  ["name", "competitor", "athlete", "player", "participant", "full name", "fullname",
   "full_name"]

/-- `normalizeHeader` (`csvParser.js` lines 14–16): lower-case, then strip
every character that is not `a`–`z` or `0`–`9`. -/
def normalizeHeader (h : String) : String :=
  ⟨(lowerStr h).data.filter fun c =>
    decide (('a' ≤ c ∧ c ≤ 'z') ∨ ('0' ≤ c ∧ c ≤ '9'))⟩

/-- `detectColumn` (`csvParser.js` lines 18–21) specialised to an alias list. -/
def detectColumn (aliases : List String) (header : String) : Bool :=
  aliases.any fun a => normalizeHeader a == normalizeHeader header

/-- Does a header cell denote the competitor-name column? -/
def detectName (h : String) : Bool := detectColumn nameAliases h

/-- Does a header cell denote the given event's column? -/
def detectEvent (e : Event) (h : String) : Bool := detectColumn (eventAliases e) h

/-- One step of the `colMap` construction (`csvParser.js` lines 79–86).  The
JS guard is `!colMap[field]`, which is true when the field is unmapped *and*
when it is mapped to column index 0 (0 is falsy), so a mapping to column 0
can be overwritten by a later match. -/
def buildColAux (isMatch : String → Bool) : Nat → Option Nat → List String → Option Nat
  | _, acc, [] => acc
  | i, acc, h :: hs =>
    buildColAux isMatch (i + 1)
      (if (acc = none ∨ acc = some 0) ∧ isMatch h then some i else acc) hs

/-- The column mapped to a field (`csvParser.js` lines 79–86). -/
def buildCol (isMatch : String → Bool) (headerRow : List String) : Option Nat :=
  buildColAux isMatch 0 none headerRow

/-- Header-row detection (`csvParser.js` lines 57–67): the first of the first
five rows containing a name-like cell, with its index. -/
def findHeaderRow (rows : List (List String)) : Option (Nat × List String) :=
  (rows.take 5).enum.find? fun p => p.2.any detectName

/-- The tournament settings handed to the parser. -/
structure Settings where
  activeEvents : List Event
  totalPoints : Event → ℚ

/-- A parser-produced competitor (`csvParser.js` lines 120–155).  The JS
object carries no `email` property, which reads as `undefined` (`none`)
downstream. -/
structure ParsedCompetitor where
  name : String
  email : Option String
  earned : Event → Option ℚ

/-- The parser's result triple. -/
structure ParseResult where
  competitors : List ParsedCompetitor
  warnings : List String
  errors : List String

/-! ### The exact warning and error strings of `csvParser.js` -/

def emptyCsvError : String := "CSV appears to be empty or has no data rows."

def noHeaderError : String :=
  "Could not find a header row. Make sure one of your columns is labeled \"name\", \"competitor\", \"athlete\", or similar."

def noNameColumnError : String := "No name column found in header row."

def noValidRowsError : String := "No valid competitor rows found after parsing."

def headerSkipWarning (idx : Nat) : String :=
  "Header row found at row " ++ toString (idx + 1) ++ " (skipped " ++ toString idx
    ++ " row(s) above it)."

def missingColumnWarning (e : Event) : String :=
  "Event \"" ++ eventName e
    ++ "\" is marked active but no matching column was found in the CSV. All competitors will receive a score of 0 for this event."

def emptyNameWarning (lineNum : Nat) : String :=
  "Row " ++ toString lineNum ++ ": Empty name — skipped."

def duplicateNameWarning (lineNum : Nat) (name : String) : String :=
  "Row " ++ toString lineNum ++ ": Duplicate name \"" ++ name
    ++ "\" — skipped. If this is a different person, resolve before uploading."

def blankWarning (lineNum : Nat) (name : String) (e : Event) : String :=
  "Row " ++ toString lineNum ++ " (" ++ name ++ "): Blank \"" ++ eventName e
    ++ "\" value treated as 0."

def nonNumericWarning (lineNum : Nat) (name raw : String) (e : Event) : String :=
  "Row " ++ toString lineNum ++ " (" ++ name ++ "): Non-numeric value \"" ++ raw
    ++ "\" in \"" ++ eventName e ++ "\" — treated as 0."

def negativeWarning (lineNum : Nat) (name raw : String) (e : Event) : String :=
  "Row " ++ toString lineNum ++ " (" ++ name ++ "): Negative value \"" ++ raw
    ++ "\" in \"" ++ eventName e ++ "\" — treated as 0."

def exceedsWarning (lineNum : Nat) (name raw : String) (e : Event) (total : ℚ) : String :=
  "Row " ++ toString lineNum ++ " (" ++ name ++ "): Value \"" ++ raw ++ "\" in \""
    ++ eventName e ++ "\" exceeds total points (" ++ toString total
    ++ ") — accepted but verify."

/-! ### Cell parsing -/

def digitsToNat (ds : List Char) : Nat := ds.foldl (fun n c => n * 10 + (c.toNat - 48)) 0

/-- Body of `parseFloat` after the optional sign. -/
def parseFloatGo (cs : List Char) (sign : ℚ) : Option ℚ :=
  let ds := cs.takeWhile Char.isDigit
  let rest := cs.dropWhile Char.isDigit
  let fs := match rest with
    | '.' :: r => r.takeWhile Char.isDigit
    | _ => []
  if ds.isEmpty && fs.isEmpty then none
  else some (sign * ((digitsToNat ds : ℚ) + (digitsToNat fs : ℚ) / (10 : ℚ) ^ fs.length))

/-- The JS global `parseFloat` on already-trimmed input: longest numeric
prefix with optional sign and fraction; `none` models `NaN`. -/
def parseFloat (s : String) : Option ℚ :=
  match s.data with
  | '-' :: cs => parseFloatGo cs (-1)
  | '+' :: cs => parseFloatGo cs 1
  | cs => parseFloatGo cs 1

/-- Classification of one active-event cell with a matched column
(`csvParser.js` lines 134–154); returns the earned value and the warnings
emitted.  `none` is an absent cell (`row[j]` is `undefined`, falsy like the
empty string). -/
def parseEventCell (lineNum : Nat) (rawName : String) (e : Event) (totalPoints : ℚ)
    (cell : Option String) : ℚ × List String :=
  let raw := (cell.map trimStr).getD ""
  if raw = "" then (0, [blankWarning lineNum rawName e])
  else
    match parseFloat raw with
    | none => (0, [nonNumericWarning lineNum rawName raw e])
    | some v =>
      if v < 0 then (0, [negativeWarning lineNum rawName raw e])
      else if totalPoints < v then (v, [exceedsWarning lineNum rawName raw e totalPoints])
      else (v, [])

/-- The per-event branch of the row loop (`csvParser.js` lines 122–155):
inactive events are `null` without reading the sheet; an active event without
a matched column is `0`; otherwise the cell is classified. -/
def eventValueAndWarnings (settings : Settings) (colOf : Event → Option Nat)
    (lineNum : Nat) (rawName : String) (row : List String) (e : Event) :
    Option ℚ × List String :=
  if e ∈ settings.activeEvents then
    match colOf e with
    | none => (some 0, [])
    | some j =>
      let res := parseEventCell lineNum rawName e (settings.totalPoints e) (row.get? j)
      (some res.1, res.2)
  else (none, [])

/-- The data-row loop (`csvParser.js` lines 105–158): rows with a blank or
duplicate (case-insensitive) name are skipped with a warning; accepted rows
produce a competitor whose earned values come from `eventValueAndWarnings`,
with that row's warnings in event order. -/
def processRows (settings : Settings) (colOf : Event → Option Nat)
    (nameCol headerRowIndex : Nat) :
    List (Nat × List String) → List String → List ParsedCompetitor × List String
  | [], _ => ([], [])
  | (rowIndex, row) :: rest, seen =>
    let lineNum := headerRowIndex + rowIndex + 2
    let rawName := ((row.get? nameCol).map trimStr).getD ""
    if rawName = "" then
      let pr := processRows settings colOf nameCol headerRowIndex rest seen
      (pr.1, emptyNameWarning lineNum :: pr.2)
    else if seen.contains (lowerStr rawName) then
      let pr := processRows settings colOf nameCol headerRowIndex rest seen
      (pr.1, duplicateNameWarning lineNum rawName :: pr.2)
    else
      let pr := processRows settings colOf nameCol headerRowIndex rest
        (lowerStr rawName :: seen)
      ({ name := rawName, email := none
         earned := fun e => (eventValueAndWarnings settings colOf lineNum rawName row e).1 }
          :: pr.1,
       ((EVENTS.map fun e =>
          (eventValueAndWarnings settings colOf lineNum rawName row e).2).flatten) ++ pr.2)

/-- `parseCSV` after the header row has been located
(`csvParser.js` lines 74–164). -/
def parseWithHeader (rows : List (List String)) (settings : Settings)
    (headerRowIndex : Nat) (headerRow : List String) : ParseResult :=
  let headerWarnings :=
    if 0 < headerRowIndex then [headerSkipWarning headerRowIndex] else []
  match buildCol detectName headerRow with
  | none => ⟨[], headerWarnings, [noNameColumnError]⟩
  | some nameCol =>
    let colOf : Event → Option Nat := fun e => buildCol (detectEvent e) headerRow
    let missingWarnings := settings.activeEvents.filterMap fun e =>
      if colOf e = none then some (missingColumnWarning e) else none
    let pr := processRows settings colOf nameCol headerRowIndex
      (rows.drop (headerRowIndex + 1)).enum []
    let warnings := headerWarnings ++ missingWarnings ++ pr.2
    ⟨pr.1, warnings, if pr.1.isEmpty then [noValidRowsError] else []⟩

/-- `parseCSV` (`csvParser.js` lines 32–165), from the parsed grid onwards. -/
def parseCSV (rows : List (List String)) (settings : Settings) : ParseResult :=
  if rows.length < 2 then ⟨[], [], [emptyCsvError]⟩
  else
    match findHeaderRow rows with
    | none => ⟨[], [], [noHeaderError]⟩
    | some (headerRowIndex, headerRow) =>
      parseWithHeader rows settings headerRowIndex headerRow

/-- The grid used by concrete parser examples: one blank, one non-numeric,
one negative and one over-cap knockdowns cell. -/
def demoGrid : List (List String) :=
  [["name", "knockdowns"], ["A", ""], ["B", "abc"], ["C", "-5"], ["D", "130"]]

/-- Settings for `demoGrid`: only knockdowns active, 120 points. -/
def demoSettings : Settings :=
  { activeEvents := [.knockdowns], totalPoints := fun _ => 120 }

example : (parseCSV demoGrid demoSettings).competitors.map
    (fun c => (c.name, c.earned .knockdowns))
    = [("A", some 0), ("B", some 0), ("C", some 0), ("D", some 130)] := by decide

example : (parseCSV demoGrid demoSettings).warnings
    = [blankWarning 2 "A" .knockdowns, nonNumericWarning 3 "B" "abc" .knockdowns,
       negativeWarning 4 "C" "-5" .knockdowns, exceedsWarning 5 "D" "130" .knockdowns 120] := by
  decide

/-! ## Commit coordinator (`server/routes/upload.js`)

The preview handler (lines 55–76) enriches each parsed competitor with the
matched existing competitor; the commit handler (lines 87–185) validates,
rejects duplicate tournaments, and writes tournament + competitors + results
in one transaction (modelled as a pure function on `Store`). -/

/-- A competitor record as submitted to `/commit`: the parser fields plus the
enrichment of the preview handler. -/
structure CommitCompetitor where
  name : String
  email : Option String
  existing_competitor_id : Option Nat
  existing_name : Option String
  earned : Event → Option ℚ

/-- The preview enrichment (`upload.js` lines 55–76): match by lower-cased
email when the parsed row carries one, else by lower-cased name (SQL
`LOWER(x) = LOWER(?)`; a `NULL` stored email never matches). -/
def enrich (s : Store) (c : ParsedCompetitor) : CommitCompetitor :=
  let byEmail : Option Competitor := match c.email with
    | some em => s.competitors.find? fun k =>
        match k.email with
        | some ke => lowerStr ke == lowerStr em
        | none => false
    | none => none
  let existing : Option Competitor := match byEmail with
    | some k => some k
    | none => s.competitors.find? fun k => lowerStr k.name == lowerStr c.name
  { name := c.name, email := c.email
    existing_competitor_id := existing.map Competitor.id
    existing_name := existing.map Competitor.name
    earned := c.earned }

/-- The `/commit` request body (`upload.js` lines 90–94); empty strings model
the absent/empty JS values (`tournament_name || null`, `!tournament_date`),
and absent `totalPoints` entries are `none` (defaulted to 120 on insert). -/
structure CommitInput where
  tournament_name : String
  tournament_date : String
  activeEvents : List Event
  totalPoints : Event → Option ℚ
  competitors : List CommitCompetitor

/-- The error classes the commit handler can throw. -/
inductive CommitError where
  | missingDate
  | noCompetitors
  | conflict (tournament_id : Nat)
deriving DecidableEq, Repr

/-- The success payload (`upload.js` lines 178–183). -/
structure CommitSummary where
  tournament_id : Nat
  new_competitors : List String
  updated_competitors : List String
deriving DecidableEq, Repr

/-- `tournament_name || null`. -/
def tournamentNameOrNull (s : String) : Option String :=
  if s = "" then none else some s

/-- The duplicate-tournament lookup (`upload.js` lines 104–106): same date and
same name, where two `NULL` names are equal (`name = ? OR (name IS NULL AND ?
IS NULL)`). -/
def duplicateOf (s : Store) (input : CommitInput) : Option Tournament :=
  s.tournaments.find? fun t =>
    t.date == input.tournament_date && t.name == tournamentNameOrNull input.tournament_name

/-- The earned values stored in a result row (`upload.js` lines 167–170):
the submitted value for active events, `null` otherwise — enforced at commit
time regardless of what the competitor record contains. -/
def resultEarned (activeEvents : List Event) (comp : CommitCompetitor) :
    Event → Option ℚ :=
  fun e => if e ∈ activeEvents then comp.earned e else none

/-- The rename of an existing competitor (`upload.js` lines 152–155): update
the stored display name only when the submitted one differs. -/
def renameCompetitor (st : Store) (cid : Nat) (comp : CommitCompetitor) : Store :=
  if some comp.name ≠ comp.existing_name then
    { st with competitors := st.competitors.map fun k =>
        if k.id = cid then { k with name := comp.name } else k }
  else st

/-- The per-competitor body of the commit transaction (`upload.js` lines
139–172).  `if (!competitorId)` is falsy for `null`/`undefined` and for the
(never issued) id 0, modelled by `getD 0`. -/
def commitStep (activeEvents : List Event) (tournamentId : Nat)
    (acc : Store × List String × List String) (comp : CommitCompetitor) :
    Store × List String × List String :=
  let st : Store := acc.1
  let idOrZero : Nat := comp.existing_competitor_id.getD 0
  if idOrZero = 0 then
    let cid := st.nextCompetitorId
    let st' := { st with
      competitors := st.competitors ++ [(⟨cid, comp.name, comp.email⟩ : Competitor)]
      nextCompetitorId := cid + 1 }
    ({ st' with results := st'.results ++
        [({ competitor_id := cid, tournament_id := tournamentId
            earned := resultEarned activeEvents comp } : TournamentResult)] },
     acc.2.1 ++ [comp.name], acc.2.2)
  else
    let st' := renameCompetitor st idOrZero comp
    ({ st' with results := st'.results ++
        [({ competitor_id := idOrZero, tournament_id := tournamentId
            earned := resultEarned activeEvents comp } : TournamentResult)] },
     acc.2.1, acc.2.2 ++ [comp.name])

/-- The commit handler (`upload.js` lines 87–185): validation, duplicate
check, then the transactional insert of the tournament, the competitors and
one result row per competitor. -/
def commit (s : Store) (input : CommitInput) :
    Except CommitError (Store × CommitSummary) :=
  if input.tournament_date = "" then .error .missingDate
  else if input.competitors.isEmpty then .error .noCompetitors
  else
    match duplicateOf s input with
    | some t => .error (.conflict t.id)
    | none =>
      let tid := s.nextTournamentId
      let newT : Tournament :=
        { id := tid, name := tournamentNameOrNull input.tournament_name
          date := input.tournament_date
          has := fun e => decide (e ∈ input.activeEvents)
          totalPoints := fun e => (input.totalPoints e).getD 120 }
      let s1 := { s with tournaments := s.tournaments ++ [newT]
                         nextTournamentId := tid + 1 }
      let res := input.competitors.foldl (commitStep input.activeEvents tid) (s1, [], [])
      .ok (res.1, ⟨tid, res.2.1, res.2.2⟩)

/-- The store after a commit attempt: unchanged when the handler throws
(nothing was written — the pre-checks run before any write and the
transaction is atomic). -/
def commitState (s : Store) (input : CommitInput) : Store :=
  match commit s input with
  | .ok (s', _) => s'
  | .error _ => s

/-! ## C4: duplicate tournaments are rejected before any write -/

/-- C4: when the pre-checks pass but an existing tournament matches the
submitted (name-or-null, date) pair, commit fails with a conflict carrying the
conflicting tournament's id, and the store is left exactly as it was — no
tournament, competitor or result row is added. -/
theorem C4_duplicate_tournament_conflict :
    ∀ (s : Store) (input : CommitInput) (t : Tournament),
      input.tournament_date ≠ "" →
      input.competitors ≠ [] →
      duplicateOf s input = some t →
      commit s input = .error (.conflict t.id)
      ∧ commitState s input = s
      ∧ (commitState s input).tournaments = s.tournaments
      ∧ (commitState s input).competitors = s.competitors
      ∧ (commitState s input).results = s.results := by
  intro s input t hdate hcomps hdup
  have hne : input.competitors.isEmpty = false := by
    cases hi : input.competitors with
    | nil => exact absurd hi hcomps
    | cons a l => rfl
  have hcommit : commit s input = .error (.conflict t.id) := by
    unfold commit
    rw [if_neg hdate, if_neg (by simp [hne]), hdup]
  have hstate : commitState s input = s := by
    unfold commitState
    rw [hcommit]
  exact ⟨hcommit, hstate, by rw [hstate], by rw [hstate], by rw [hstate]⟩

/-- A store holding one tournament named "Spring" on 2024-05-01. -/
def dupStore : Store :=
  { competitors := []
    tournaments := [⟨1, some "Spring", "2024-05-01", fun _ => true, fun _ => 120⟩]
    results := []
    nextCompetitorId := 1
    nextTournamentId := 2 }

/-- The tournament row stored in `dupStore`. -/
def dupTournament : Tournament :=
  ⟨1, some "Spring", "2024-05-01", fun _ => true, fun _ => 120⟩

/-- A commit request colliding with `dupStore`'s tournament. -/
def dupInput : CommitInput :=
  { tournament_name := "Spring"
    tournament_date := "2024-05-01"
    activeEvents := [.knockdowns]
    totalPoints := fun _ => none
    competitors := [{ name := "Alice", email := none, existing_competitor_id := none
                      existing_name := none, earned := fun _ => some 0 }] }

theorem C4_duplicate_tournament_conflict_witness :
    commit dupStore dupInput = .error (.conflict 1)
    ∧ commitState dupStore dupInput = dupStore := by
  have h := C4_duplicate_tournament_conflict dupStore dupInput dupTournament
    (by decide) (by simp [dupInput]) rfl
  exact ⟨h.1, h.2.1⟩

/-! ## C5: inactive events are always null -/

theorem processRows_mem_earned (settings : Settings) (colOf : Event → Option Nat)
    (nc hidx : Nat) :
    ∀ (dataRows : List (Nat × List String)) (seen : List String) (c : ParsedCompetitor),
      c ∈ (processRows settings colOf nc hidx dataRows seen).1 →
      ∃ ln nm row, c.earned
        = fun e => (eventValueAndWarnings settings colOf ln nm row e).1 := by
  intro dataRows
  induction dataRows with
  | nil =>
    intro seen c hc
    simp [processRows] at hc
  | cons hd rest ih =>
    intro seen c hc
    obtain ⟨rowIndex, row⟩ := hd
    simp only [processRows] at hc
    split at hc
    · exact ih _ c hc
    · split at hc
      · exact ih _ c hc
      · rcases List.mem_cons.mp hc with rfl | hc'
        · exact ⟨_, _, row, rfl⟩
        · exact ih _ c hc'

theorem commitFold_results (active : List Event) (tid : Nat) :
    ∀ (comps : List CommitCompetitor) (acc : Store × List String × List String)
      (r : TournamentResult),
      r ∈ (List.foldl (commitStep active tid) acc comps).1.results →
      r ∈ acc.1.results ∨ ∀ e ∉ active, r.earned e = none := by
  intro comps
  induction comps with
  | nil => intro acc r hr; exact Or.inl hr
  | cons comp rest ih =>
    intro acc r hr
    rw [List.foldl_cons] at hr
    rcases ih _ r hr with h | h
    · simp only [commitStep] at h
      split at h
      · rcases List.mem_append.mp h with h' | h'
        · exact Or.inl h'
        · rcases List.mem_singleton.mp h' with rfl
          exact Or.inr fun e he => by simp [resultEarned, he]
      · rw [show (renameCompetitor acc.1 (comp.existing_competitor_id.getD 0) comp).results
            = acc.1.results from by unfold renameCompetitor; split <;> rfl] at h
        rcases List.mem_append.mp h with h' | h'
        · exact Or.inl h'
        · rcases List.mem_singleton.mp h' with rfl
          exact Or.inr fun e he => by simp [resultEarned, he]
    · exact Or.inr h

/-- Any result row present after a successful commit either pre-existed or
was written by `commitStep`, hence carries `null` for every inactive event. -/
theorem commit_ok_results (s : Store) (input : CommitInput) (s' : Store)
    (sum : CommitSummary) (h : commit s input = .ok (s', sum)) :
    ∀ r ∈ s'.results,
      r ∈ s.results ∨ ∀ e ∉ input.activeEvents, r.earned e = none := by
  unfold commit at h
  split at h
  · simp at h
  · split at h
    · simp at h
    · split at h
      · simp at h
      · rw [Except.ok.injEq] at h
        have hs' := congrArg Prod.fst h
        simp only at hs'
        intro r hr
        rw [← hs'] at hr
        rcases commitFold_results input.activeEvents s.nextTournamentId
            input.competitors _ r hr with h' | h'
        · exact Or.inl h'
        · exact Or.inr h'

/-- C5: (parser) for an event not in `activeEvents`, every parsed competitor's
earned value is `null`, whatever the sheet contains; (commit) every result row
written by a commit has `null` for every event not active for that tournament,
independent of the submitted competitor record. -/
theorem C5_inactive_events_null :
    (∀ (rows : List (List String)) (settings : Settings) (e : Event),
        e ∉ settings.activeEvents →
        ∀ c ∈ (parseCSV rows settings).competitors, c.earned e = none)
    ∧ (∀ (s : Store) (input : CommitInput) (e : Event),
        e ∉ input.activeEvents →
        ∀ r ∈ (commitState s input).results, r ∉ s.results → r.earned e = none) := by
  constructor
  · intro rows settings e he c hc
    unfold parseCSV at hc
    split at hc
    · simp at hc
    · split at hc
      · simp at hc
      · unfold parseWithHeader at hc
        split at hc <;>
        · split at hc
          · simp at hc
          · obtain ⟨ln, nm, row, hearn⟩ := processRows_mem_earned _ _ _ _ _ _ c hc
            rw [hearn]
            simp [eventValueAndWarnings, he]
  · intro s input e he r hmem hnot
    unfold commitState at hmem
    cases hcm : commit s input with
    | error err => rw [hcm] at hmem; exact absurd hmem hnot
    | ok out =>
      obtain ⟨s', sum⟩ := out
      rw [hcm] at hmem
      rcases commit_ok_results s input s' sum hcm r hmem with h | h
      · exact absurd h hnot
      · exact h e he

theorem demo_competitors_ne_nil : (parseCSV demoGrid demoSettings).competitors ≠ [] := by
  intro h0
  have hlen : (parseCSV demoGrid demoSettings).competitors.length = 4 := by decide
  rw [h0] at hlen
  simp at hlen

/-- The first competitor parsed from `demoGrid`. -/
def cA : ParsedCompetitor :=
  (parseCSV demoGrid demoSettings).competitors.head demo_competitors_ne_nil

/-- An empty store for the C5 commit example. -/
def s5 : Store := ⟨[], [], [], 1, 1⟩

/-- A commit of one new competitor whose record carries an earned value for
the inactive event `distance`. -/
def in5 : CommitInput :=
  { tournament_name := "T"
    tournament_date := "2024-06-01"
    activeEvents := [.knockdowns]
    totalPoints := fun _ => none
    competitors := [{ name := "Eve", email := none, existing_competitor_id := none
                      existing_name := none, earned := fun _ => some 7 }] }

/-- The single result row written by committing `in5` to `s5`. -/
def r5 : TournamentResult :=
  (commitState s5 in5).results.headD ⟨0, 0, fun _ => none⟩

theorem C5_inactive_events_null_witness :
    cA.earned .distance = none ∧ r5.earned .distance = none := by
  constructor
  · exact C5_inactive_events_null.1 demoGrid demoSettings .distance (by decide) cA
      (List.head_mem demo_competitors_ne_nil)
  · refine C5_inactive_events_null.2 s5 in5 .distance (by decide) r5 ?_ ?_
    · rw [show (commitState s5 in5).results = [r5] from rfl]
      exact List.mem_singleton_self r5
    · rw [show s5.results = ([] : List TournamentResult) from rfl]
      exact List.not_mem_nil r5

/-! ## C6: competitor matching and upsert on commit -/

theorem renameCompetitor_results (st : Store) (cid : Nat) (c : CommitCompetitor) :
    (renameCompetitor st cid c).results = st.results := by
  unfold renameCompetitor; split <;> rfl

theorem renameCompetitor_ids (st : Store) (cid : Nat) (c : CommitCompetitor) :
    (renameCompetitor st cid c).competitors.map Competitor.id
      = st.competitors.map Competitor.id := by
  unfold renameCompetitor
  split
  · simp only [List.map_map]
    refine List.map_congr_left ?_
    intro k _
    by_cases hk : k.id = cid <;> simp [hk]
  · rfl

/-- A store already holding the competitor "Dana" with id 1. -/
def sDana : Store :=
  { competitors := [⟨1, "Dana", none⟩], tournaments := [], results := []
    nextCompetitorId := 2, nextTournamentId := 1 }

/-- Three new competitors plus "dana", who matches the stored "Dana" by
case-insensitive name. -/
def parsedC6 : List ParsedCompetitor :=
  [⟨"Alice", none, fun _ => some 10⟩, ⟨"Bob", none, fun _ => some 10⟩,
   ⟨"Carol", none, fun _ => some 10⟩, ⟨"dana", none, fun _ => some 10⟩]

/-- The commit request built from the preview enrichment of `parsedC6`. -/
def inC6 : CommitInput :=
  { tournament_name := "Spring", tournament_date := "2024-05-01"
    activeEvents := EVENTS, totalPoints := fun _ => some 120
    competitors := parsedC6.map (enrich sDana) }

/-- C6: the preview matches a parsed competitor without email by
case-insensitive name; at commit time a matched competitor's id is reused (no
new competitor row, the result row carries the existing id, and the stored
name is touched only when it differs), an unmatched competitor is inserted
with the next fresh id; committing 3 new and 1 known competitor to a store
with one competitor yields exactly 3 new competitor rows and 4 result rows,
with the known competitor's id 1 reused. -/
theorem C6_competitor_upsert :
    (∀ (s : Store) (c : ParsedCompetitor), c.email = none →
        (enrich s c).existing_competitor_id
          = (s.competitors.find? fun k => lowerStr k.name == lowerStr c.name).map
              Competitor.id
        ∧ (enrich s c).existing_name
          = (s.competitors.find? fun k => lowerStr k.name == lowerStr c.name).map
              Competitor.name)
    ∧ (∀ (active : List Event) (tid : Nat) (acc : Store × List String × List String)
        (comp : CommitCompetitor) (cid : Nat),
        comp.existing_competitor_id = some cid → cid ≠ 0 →
        ((commitStep active tid acc comp).1.competitors.map Competitor.id
            = acc.1.competitors.map Competitor.id)
        ∧ (commitStep active tid acc comp).1.results
            = acc.1.results ++ [⟨cid, tid, resultEarned active comp⟩]
        ∧ (comp.existing_name = some comp.name →
            (commitStep active tid acc comp).1.competitors = acc.1.competitors))
    ∧ (∀ (active : List Event) (tid : Nat) (acc : Store × List String × List String)
        (comp : CommitCompetitor),
        comp.existing_competitor_id = none →
        (commitStep active tid acc comp).1.competitors
            = acc.1.competitors ++ [⟨acc.1.nextCompetitorId, comp.name, comp.email⟩]
        ∧ (commitStep active tid acc comp).1.results
            = acc.1.results ++ [⟨acc.1.nextCompetitorId, tid, resultEarned active comp⟩])
    ∧ ((commitState sDana inC6).competitors.map (fun k => (k.id, k.name))
          = [(1, "dana"), (2, "Alice"), (3, "Bob"), (4, "Carol")]
        ∧ (commitState sDana inC6).results.map TournamentResult.competitor_id
          = [2, 3, 4, 1]
        ∧ (commitState sDana inC6).competitors.length
          = sDana.competitors.length + 3) := by
  refine ⟨?_, ?_, ?_, by decide, by decide, by decide⟩
  · intro s c hemail
    simp [enrich, hemail]
  · intro active tid acc comp cid hid hcid
    have hgd : comp.existing_competitor_id.getD 0 = cid := by rw [hid]; rfl
    constructor
    · show (commitStep active tid acc comp).1.competitors.map Competitor.id = _
      unfold commitStep
      rw [hgd, if_neg hcid]
      exact renameCompetitor_ids acc.1 cid comp
    constructor
    · show (commitStep active tid acc comp).1.results = _
      unfold commitStep
      rw [hgd, if_neg hcid]
      show (renameCompetitor acc.1 cid comp).results ++ _ = _
      rw [renameCompetitor_results]
    · intro hname
      unfold commitStep
      rw [hgd, if_neg hcid]
      show (renameCompetitor acc.1 cid comp).competitors = _
      unfold renameCompetitor
      rw [if_neg (by simp [hname])]
  · intro active tid acc comp hid
    have hgd : comp.existing_competitor_id.getD 0 = 0 := by rw [hid]; rfl
    constructor
    · unfold commitStep
      rw [hgd, if_pos rfl]
    · unfold commitStep
      rw [hgd, if_pos rfl]

/-! ## C7: column mapping and the falsy-zero guard -/

/-- The mapping the spec's first-match-wins rule prescribes (§4.1): the
smallest header index whose cell matches the field's aliases.  Modelled from
the spec for comparison with `buildCol`. -/
def specFirstMatchCol (isMatch : String → Bool) (headerRow : List String) : Option Nat :=
  (headerRow.enum.find? fun p => isMatch p.2).map Prod.fst

/-- C7 fails on the code: the guard `!colMap[field]` (`csvParser.js` line 82)
is truthy when the field is mapped to column index 0, so a field first matched
at column 0 is remapped by a later alias match.  With header
`["name", "competitor"]` the name field ends on column 1, not the smallest
matching index 0, and the parsed competitor names are read from column 1. -/
theorem C7_first_match_wins_bug :
    buildCol detectName ["name", "competitor"] = some 1
    ∧ specFirstMatchCol detectName ["name", "competitor"] = some 0
    ∧ detectName "name" = true
    ∧ (parseCSV [["name", "competitor"], ["X", "Y"]]
        ⟨[], fun _ => 120⟩).competitors.map ParsedCompetitor.name = ["Y"] := by
  refine ⟨by decide, by decide, by decide, by decide⟩

/-! ## C8: classification of active-event cells -/

/-- C8: for an active event with a matched column, an absent or blank cell is
earned 0 with a per-row warning; a non-numeric cell is 0 with a warning naming
the bad value; a negative value is 0 with a warning; a value exceeding the
event's total points is accepted unchanged (no clamp) with a warning; all
exhibited end-to-end on `demoGrid`. -/
theorem C8_cell_classification :
    (∀ (ln : Nat) (nm : String) (e : Event) (tp : ℚ),
        parseEventCell ln nm e tp none = (0, [blankWarning ln nm e]))
    ∧ (∀ (ln : Nat) (nm : String) (e : Event) (tp : ℚ) (cell : String),
        trimStr cell = "" →
        parseEventCell ln nm e tp (some cell) = (0, [blankWarning ln nm e]))
    ∧ (∀ (ln : Nat) (nm : String) (e : Event) (tp : ℚ) (cell : String),
        trimStr cell ≠ "" → parseFloat (trimStr cell) = none →
        parseEventCell ln nm e tp (some cell)
          = (0, [nonNumericWarning ln nm (trimStr cell) e]))
    ∧ (∀ (ln : Nat) (nm : String) (e : Event) (tp : ℚ) (cell : String) (v : ℚ),
        trimStr cell ≠ "" → parseFloat (trimStr cell) = some v → v < 0 →
        parseEventCell ln nm e tp (some cell)
          = (0, [negativeWarning ln nm (trimStr cell) e]))
    ∧ (∀ (ln : Nat) (nm : String) (e : Event) (tp : ℚ) (cell : String) (v : ℚ),
        trimStr cell ≠ "" → parseFloat (trimStr cell) = some v → ¬v < 0 → tp < v →
        parseEventCell ln nm e tp (some cell)
          = (v, [exceedsWarning ln nm (trimStr cell) e tp]))
    ∧ (parseCSV demoGrid demoSettings).competitors.map
        (fun c => (c.name, c.earned .knockdowns))
        = [("A", some 0), ("B", some 0), ("C", some 0), ("D", some 130)]
    ∧ (parseCSV demoGrid demoSettings).warnings
        = [blankWarning 2 "A" .knockdowns, nonNumericWarning 3 "B" "abc" .knockdowns,
           negativeWarning 4 "C" "-5" .knockdowns,
           exceedsWarning 5 "D" "130" .knockdowns 120] := by
  refine ⟨?_, ?_, ?_, ?_, ?_, by decide, by decide⟩
  · intro ln nm e tp
    simp [parseEventCell]
  · intro ln nm e tp cell h
    simp [parseEventCell, h]
  · intro ln nm e tp cell h1 h2
    simp [parseEventCell, h1, h2]
  · intro ln nm e tp cell v h1 h2 h3
    simp [parseEventCell, h1, h2, h3]
  · intro ln nm e tp cell v h1 h2 h3 h4
    simp [parseEventCell, h1, h2, h3, h4]

theorem C8_cell_classification_witness :
    parseEventCell 3 "B" .knockdowns 120 (some "abc")
      = (0, [nonNumericWarning 3 "B" "abc" .knockdowns])
    ∧ parseEventCell 5 "D" .knockdowns 120 (some "130")
      = (130, [exceedsWarning 5 "D" "130" .knockdowns 120]) :=
  ⟨C8_cell_classification.2.2.1 3 "B" .knockdowns 120 "abc" (by decide) (by decide),
   C8_cell_classification.2.2.2.2.1 5 "D" .knockdowns 120 "130" 130 (by decide)
     (by decide) (by decide) (by decide)⟩

/-! ## C9: a missing column for an active event -/

theorem headChar_append (a b : String) (c : Char) (h : a.data.head? = some c) :
    (a ++ b).data.head? = some c := by
  rw [String.data_append]
  cases hd : a.data with
  | nil => rw [hd] at h; simp at h
  | cons x t =>
    rw [hd] at h
    simp only [List.head?_cons, Option.some.injEq] at h
    simp [h]

theorem headChar_emptyName (ln : Nat) : (emptyNameWarning ln).data.head? = some 'R' := by
  unfold emptyNameWarning
  repeat apply headChar_append
  rfl

theorem headChar_duplicate (ln : Nat) (nm : String) :
    (duplicateNameWarning ln nm).data.head? = some 'R' := by
  unfold duplicateNameWarning
  repeat apply headChar_append
  rfl

theorem headChar_blank (ln : Nat) (nm : String) (e : Event) :
    (blankWarning ln nm e).data.head? = some 'R' := by
  unfold blankWarning
  repeat apply headChar_append
  rfl

theorem headChar_nonNumeric (ln : Nat) (nm raw : String) (e : Event) :
    (nonNumericWarning ln nm raw e).data.head? = some 'R' := by
  unfold nonNumericWarning
  repeat apply headChar_append
  rfl

theorem headChar_negative (ln : Nat) (nm raw : String) (e : Event) :
    (negativeWarning ln nm raw e).data.head? = some 'R' := by
  unfold negativeWarning
  repeat apply headChar_append
  rfl

theorem headChar_exceeds (ln : Nat) (nm raw : String) (e : Event) (tp : ℚ) :
    (exceedsWarning ln nm raw e tp).data.head? = some 'R' := by
  unfold exceedsWarning
  repeat apply headChar_append
  rfl

theorem headChar_headerSkip (idx : Nat) :
    (headerSkipWarning idx).data.head? = some 'H' := by
  unfold headerSkipWarning
  repeat apply headChar_append
  rfl

theorem headChar_missing (e : Event) :
    (missingColumnWarning e).data.head? = some 'E' := by
  unfold missingColumnWarning
  repeat apply headChar_append
  rfl

/-- A warning starting with 'R' (or 'H') is never the missing-column warning,
which starts with 'E'. -/
theorem beq_missing_false_of_headChar (w : String) (e : Event) (c : Char)
    (hc : c ≠ 'E') (h : w.data.head? = some c) :
    (w == missingColumnWarning e) = false := by
  cases hbeq : w == missingColumnWarning e with
  | false => rfl
  | true =>
    exfalso
    have hw : w = missingColumnWarning e := eq_of_beq hbeq
    rw [hw, headChar_missing e] at h
    exact hc (Option.some.inj h).symm

theorem missingColumnWarning_inj (a b : Event) :
    missingColumnWarning a = missingColumnWarning b ↔ a = b := by
  cases a <;> cases b <;> decide

theorem countP_missingWarnings (colOf : Event → Option Nat) (e : Event) :
    ∀ (l : List Event), l.Nodup → e ∈ l → colOf e = none →
      (l.filterMap fun v =>
          if colOf v = none then some (missingColumnWarning v) else none).countP
        (fun w => w == missingColumnWarning e) = 1 := by
  intro l
  induction l with
  | nil => intro _ h; simp at h
  | cons a rest ih =>
    intro hnd hmem hnone
    rw [List.nodup_cons] at hnd
    obtain ⟨hna, hnd'⟩ := hnd
    have htail0 : e ∉ rest →
        (rest.filterMap fun v =>
            if colOf v = none then some (missingColumnWarning v) else none).countP
          (fun w => w == missingColumnWarning e) = 0 := by
      intro hnr
      refine List.countP_eq_zero.mpr ?_
      intro w hw
      obtain ⟨v, hv, hw'⟩ := List.mem_filterMap.mp hw
      by_cases hcv : colOf v = none
      · rw [if_pos hcv] at hw'
        have hwv : w = missingColumnWarning v := (Option.some.inj hw').symm
        have hvne : v ≠ e := fun hve => hnr (hve ▸ hv)
        rw [hwv]
        intro hbeq
        exact absurd ((missingColumnWarning_inj v e).mp (eq_of_beq hbeq)) hvne
      · rw [if_neg hcv] at hw'
        simp at hw'
    rcases List.mem_cons.mp hmem with rfl | hmem'
    · rw [List.filterMap_cons, if_pos hnone, List.countP_cons, htail0 hna]
      simp
    · have hae : a ≠ e := fun h => hna (h ▸ hmem')
      rw [List.filterMap_cons]
      by_cases hca : colOf a = none
      · rw [if_pos hca, List.countP_cons, ih hnd' hmem' hnone]
        have : (missingColumnWarning a == missingColumnWarning e) = false := by
          cases hbe : (missingColumnWarning a == missingColumnWarning e) with
          | false => rfl
          | true => exact absurd ((missingColumnWarning_inj a e).mp (eq_of_beq hbe)) hae
        rw [this]
        simp
      · rw [if_neg hca]
        exact ih hnd' hmem' hnone

theorem buildColAux_ne_none_of_acc (m : String → Bool) :
    ∀ (l : List String) (i : Nat) (acc : Option Nat), acc ≠ none →
      buildColAux m i acc l ≠ none := by
  intro l
  induction l with
  | nil => intro i acc h; exact h
  | cons hd tl ih =>
    intro i acc h
    simp only [buildColAux]
    split
    · exact ih _ _ (by simp)
    · exact ih _ _ h

theorem buildColAux_ne_none_of_any (m : String → Bool) :
    ∀ (l : List String) (i : Nat) (acc : Option Nat), l.any m = true →
      buildColAux m i acc l ≠ none := by
  intro l
  induction l with
  | nil => intro i acc h; simp at h
  | cons hd tl ih =>
    intro i acc h
    simp only [buildColAux]
    by_cases hm : m hd = true
    · split
      · exact buildColAux_ne_none_of_acc m tl _ _ (by simp)
      · rename_i hcond
        have hacc : acc ≠ none := fun hn => hcond ⟨Or.inl hn, hm⟩
        exact buildColAux_ne_none_of_acc m tl _ _ hacc
    · have htl : tl.any m = true := by
        simp only [List.any_cons, hm, Bool.false_or] at h
        exact h
      split
      · exact buildColAux_ne_none_of_acc m tl _ _ (by simp)
      · exact ih _ _ htl

theorem headChar_eventWarnings (settings : Settings) (colOf : Event → Option Nat)
    (ln : Nat) (nm : String) (row : List String) (e : Event) :
    ∀ w ∈ (eventValueAndWarnings settings colOf ln nm row e).2,
      w.data.head? = some 'R' := by
  intro w hw
  unfold eventValueAndWarnings at hw
  split at hw
  · split at hw
    · simp at hw
    · unfold parseEventCell at hw
      dsimp only at hw
      split at hw
      · rcases List.mem_singleton.mp hw with rfl
        exact headChar_blank _ _ _
      · split at hw
        · rcases List.mem_singleton.mp hw with rfl
          exact headChar_nonNumeric _ _ _ _
        · split at hw
          · rcases List.mem_singleton.mp hw with rfl
            exact headChar_negative _ _ _ _
          · split at hw
            · rcases List.mem_singleton.mp hw with rfl
              exact headChar_exceeds _ _ _ _ _
            · simp at hw
  · simp at hw

theorem headChar_processRows (settings : Settings) (colOf : Event → Option Nat)
    (nc hidx : Nat) :
    ∀ (dataRows : List (Nat × List String)) (seen : List String),
      ∀ w ∈ (processRows settings colOf nc hidx dataRows seen).2,
        w.data.head? = some 'R' := by
  intro dataRows
  induction dataRows with
  | nil => intro seen w hw; simp [processRows] at hw
  | cons hd rest ih =>
    intro seen w hw
    obtain ⟨ri, row⟩ := hd
    simp only [processRows] at hw
    split at hw
    · rcases List.mem_cons.mp hw with rfl | hw'
      · exact headChar_emptyName _
      · exact ih _ w hw'
    · split at hw
      · rcases List.mem_cons.mp hw with rfl | hw'
        · exact headChar_duplicate _ _
        · exact ih _ w hw'
      · rcases List.mem_append.mp hw with hw' | hw'
        · obtain ⟨l, hl, hwl⟩ := List.mem_flatten.mp hw'
          obtain ⟨e, _, rfl⟩ := List.mem_map.mp hl
          exact headChar_eventWarnings settings colOf _ _ row e w hwl
        · exact ih _ w hw'

/-- C9: when an active event has no matching column in the detected header
row, every accepted competitor's earned value for it is 0 (not null), and the
full warning list contains the missing-column warning for that event exactly
once — not once per row. -/
theorem C9_missing_column :
    ∀ (rows : List (List String)) (settings : Settings) (e : Event)
      (idx : Nat) (headerRow : List String),
      settings.activeEvents.Nodup →
      e ∈ settings.activeEvents →
      ¬rows.length < 2 →
      findHeaderRow rows = some (idx, headerRow) →
      buildCol (detectEvent e) headerRow = none →
      (∀ c ∈ (parseCSV rows settings).competitors, c.earned e = some 0)
      ∧ (parseCSV rows settings).warnings.countP
          (fun w => w == missingColumnWarning e) = 1 := by
  intro rows settings e idx headerRow hnd hmem hlen hfind hmiss
  have hany : headerRow.any detectName = true := by
    have h := List.find?_some hfind
    simpa using h
  have hname : buildCol detectName headerRow ≠ none :=
    buildColAux_ne_none_of_any detectName headerRow 0 none hany
  obtain ⟨nc, hnc⟩ := Option.ne_none_iff_exists'.mp hname
  have hcomp : (parseCSV rows settings).competitors
      = (processRows settings (fun v => buildCol (detectEvent v) headerRow) nc idx
          (rows.drop (idx + 1)).enum []).1 := by
    unfold parseCSV
    rw [if_neg hlen, hfind]
    dsimp only
    unfold parseWithHeader
    rw [hnc]
  have hwarn : (parseCSV rows settings).warnings
      = (if 0 < idx then [headerSkipWarning idx] else [])
        ++ (settings.activeEvents.filterMap fun v =>
              if buildCol (detectEvent v) headerRow = none
              then some (missingColumnWarning v) else none)
        ++ (processRows settings (fun v => buildCol (detectEvent v) headerRow) nc idx
              (rows.drop (idx + 1)).enum []).2 := by
    unfold parseCSV
    rw [if_neg hlen, hfind]
    dsimp only
    unfold parseWithHeader
    rw [hnc]
  constructor
  · intro c hc
    rw [hcomp] at hc
    obtain ⟨ln, nm, row, hearn⟩ := processRows_mem_earned _ _ _ _ _ _ c hc
    rw [hearn]
    simp [eventValueAndWarnings, hmem, hmiss]
  · rw [hwarn, List.countP_append, List.countP_append]
    have h1 : (if 0 < idx then [headerSkipWarning idx] else []).countP
        (fun w => w == missingColumnWarning e) = 0 := by
      split
      · simp only [List.countP_cons, List.countP_nil]
        rw [beq_missing_false_of_headChar _ e 'H' (by decide) (headChar_headerSkip idx)]
        rfl
      · rfl
    have h2 : (settings.activeEvents.filterMap fun v =>
          if buildCol (detectEvent v) headerRow = none
          then some (missingColumnWarning v) else none).countP
        (fun w => w == missingColumnWarning e) = 1 :=
      countP_missingWarnings (fun v => buildCol (detectEvent v) headerRow) e
        settings.activeEvents hnd hmem hmiss
    have h3 : (processRows settings (fun v => buildCol (detectEvent v) headerRow) nc idx
          (rows.drop (idx + 1)).enum []).2.countP
        (fun w => w == missingColumnWarning e) = 0 := by
      refine List.countP_eq_zero.mpr ?_
      intro w hw
      rw [beq_missing_false_of_headChar _ e 'R' (by decide)
        (headChar_processRows _ _ _ _ _ _ w hw)]
      simp
    rw [h1, h2, h3]

/-- The parsed "dana" row used by the C6 witness. -/
def danaParsed : ParsedCompetitor := ⟨"dana", none, fun _ => some 10⟩

theorem C6_competitor_upsert_witness :
    ((enrich sDana danaParsed).existing_competitor_id
        = (sDana.competitors.find? fun k =>
            lowerStr k.name == lowerStr danaParsed.name).map Competitor.id)
    ∧ ((commitStep EVENTS 1 (sDana, [], []) (enrich sDana danaParsed)).1.competitors.map
        Competitor.id = sDana.competitors.map Competitor.id) :=
  ⟨(C6_competitor_upsert.1 sDana danaParsed rfl).1,
   (C6_competitor_upsert.2.1 EVENTS 1 (sDana, [], []) (enrich sDana danaParsed) 1 rfl
      (by decide)).1⟩

theorem C9_missing_column_witness :
    (parseCSV [["name"], ["A"]]
        ⟨[.knockdowns], fun _ => 120⟩).warnings.countP
      (fun w => w == missingColumnWarning .knockdowns) = 1 :=
  (C9_missing_column [["name"], ["A"]] ⟨[.knockdowns], fun _ => 120⟩ .knockdowns 0
    ["name"] (by decide) (by decide) (by decide) (by decide) (by decide)).2
